import Mathlib

/-!
Verification development for the wot-serve repository.

The definitions below are a shallow embedding of the Rust sources:
- src/hlist.rs: the `NilPlus`/`ConsPlus` extension chains and their
  `ExtendableThing` associated-type mapping (`assocPos` below).
- src/servient/builder.rs: `uritemplate_to_axum` (modelled together with the
  component parsing done by the `datta` dependency), `build_servient`
  (route-table accumulation via axum `Router::route` merge semantics, the
  canonical document route, the well-known redirect, the CORS layer, the
  instance-name derivation, and the bind-address default), and the
  `Default` instance of `ServientExtension`.
- src/advertise.rs: `ThingType`, its service-type and DNS-type renderings,
  and `ServiceBuilder::build` producing one DNS-SD record.

Conventions: Rust panics are modelled as explicit `panic`/`panicked`
constructors of the result types (the Rust functions either return plain
values or unwind; they have no error-return channel for these failures).
Randomness (`Uuid::new_v4`) is modelled as an explicit input parameter.
External collaborators are modelled at their documented boundary:
`serde_json::to_value` as a concrete canonical rendering `serializeThing`,
`mdns_sd::ServiceInfo::new` as the plain record `ServiceRecordM`, axum
`Router::route` as exact-path association with method-table merging that
fails on a duplicate method (axum panics there); path-pattern conflicts
beyond exact string equality (matchit-level conflicts) are out of scope.
-/

namespace WS

/-! ## Section 1: the extension chain (src/hlist.rs) -/

/-- The nine nested structural positions of `ExtendableThing`. -/
inductive SchemaPos where
  | interactionAffordance
  | propertyAffordance
  | actionAffordance
  | eventAffordance
  | form
  | expectedResponse
  | dataSchema
  | objectSchema
  | arraySchema
deriving DecidableEq

/-- Reified type expressions for extension chains: an abstract extension type
variable with a (possibly empty) trail of associated-type projections applied
to it, or a `NilPlus`/`ConsPlus` chain over such types. -/
inductive ExtTy where
  | var (n : Nat) (path : List SchemaPos)
  | nilPlus (t : ExtTy)
  | consPlus (t u v : ExtTy)
deriving DecidableEq

/-- The associated-type mapping of the `ExtendableThing` impls in
src/hlist.rs lines 83-112 (identical in src/servient.rs lines 250-279),
transcribed slot by slot.  In the `ConsPlus` arm the `propertyAffordance`
and `arraySchema` cases reproduce exactly what the source writes:
`ConsPlus<T::PropertyAffordance, U::PropertyAffordance, V::InteractionAffordance>`
and `ConsPlus<T::ArraySchema, U::ArraySchema, U::ArraySchema>`. -/
def assocPos : ExtTy → SchemaPos → ExtTy
  | .var n ps, p => .var n (ps ++ [p])
  | .nilPlus t, p => .nilPlus (assocPos t p)
  | .consPlus t u v, p =>
    match p with
    | .interactionAffordance =>
        .consPlus (assocPos t .interactionAffordance) (assocPos u .interactionAffordance)
          (assocPos v .interactionAffordance)
    | .propertyAffordance =>
        .consPlus (assocPos t .propertyAffordance) (assocPos u .propertyAffordance)
          (assocPos v .interactionAffordance)
    | .actionAffordance =>
        .consPlus (assocPos t .actionAffordance) (assocPos u .actionAffordance)
          (assocPos v .actionAffordance)
    | .eventAffordance =>
        .consPlus (assocPos t .eventAffordance) (assocPos u .eventAffordance)
          (assocPos v .eventAffordance)
    | .form =>
        .consPlus (assocPos t .form) (assocPos u .form) (assocPos v .form)
    | .expectedResponse =>
        .consPlus (assocPos t .expectedResponse) (assocPos u .expectedResponse)
          (assocPos v .expectedResponse)
    | .dataSchema =>
        .consPlus (assocPos t .dataSchema) (assocPos u .dataSchema) (assocPos v .dataSchema)
    | .objectSchema =>
        .consPlus (assocPos t .objectSchema) (assocPos u .objectSchema) (assocPos v .objectSchema)
    | .arraySchema =>
        .consPlus (assocPos t .arraySchema) (assocPos u .arraySchema) (assocPos u .arraySchema)

/-! ## Section 2: value-level registry chains (src/hlist.rs lines 21-81) -/

/-- The `wot_td::hlist` chain `Nil` / `Cons`, with all contributed payloads
drawn from one type `β`. -/
inductive Chain (β : Type) where
  | nil
  | cons (head : β) (tail : Chain β)
deriving DecidableEq

/-- Prepending to a chain, `Nil::cons` / `Cons::cons` of wot_td. -/
def Chain.consOp {β : Type} (c : Chain β) (v : β) : Chain β :=
  .cons v c

/-- Listing of the payloads of a chain, most recently added first. -/
def Chain.toList {β : Type} : Chain β → List β
  | .nil => []
  | .cons h t => h :: t.toList

/-- A registry node: `NilPlus` holds only the base payload, `ConsPlus` holds
the base payload, the most recently contributed capability, and the chain of
earlier contributions. -/
inductive RegistryM (α β : Type) where
  | nilPlus (field : α)
  | consPlus (field : α) (head : β) (tail : Chain β)
deriving DecidableEq

/-- The base payload of a registry node, the `field` member in the source. -/
def RegistryM.baseField {α β : Type} : RegistryM α β → α
  | .nilPlus f => f
  | .consPlus f _ _ => f

/-- All contributed capabilities of a registry node, newest first. -/
def RegistryM.caps {α β : Type} : RegistryM α β → List β
  | .nilPlus _ => []
  | .consPlus _ h t => h :: t.toList

/-- The `Extend::ext` impls of src/hlist.rs lines 62-81: `NilPlus` wraps the
new value over an empty chain, `ConsPlus` delegates to `cons`, which keeps
`field` and prepends the value to the chain. -/
def RegistryM.ext {α β : Type} : RegistryM α β → β → RegistryM α β
  | .nilPlus f, u => .consPlus f u .nil
  | .consPlus f h t, z => .consPlus f z (Chain.consOp t h)

/-! ## Section 3: URI-template translation (src/servient/builder.rs 113-146)

The repository translates over the components produced by
`datta::UriTemplate::new`; `parseTemplate` below models that parsing
(brace-delimited expressions with a leading operator character and
comma-separated variable specifications), and `translateComponents` is a
direct transcription of the `for` loop of `uritemplate_to_axum`. -/

/-- RFC 6570 expression operators as distinguished by `datta::Operator`. -/
inductive TOp where
  | null
  | plus
  | hash
  | dot
  | slash
  | semi
  | question
  | amp
deriving DecidableEq

/-- A variable specification; only the name is relevant for the translator. -/
structure VarSpecM where
  name : String
deriving DecidableEq

/-- A parsed template component, `datta::TemplateComponent`. -/
inductive TemplateComponent where
  | literal (s : String)
  | varList (op : TOp) (specs : List VarSpecM)
deriving DecidableEq

/-- The operator character recognition of datta's expression parsing. -/
def opOfChar (c : Char) : Option TOp :=
  if c = '+' then some .plus
  else if c = '#' then some .hash
  else if c = '.' then some .dot
  else if c = '/' then some .slash
  else if c = ';' then some .semi
  else if c = '?' then some .question
  else if c = '&' then some .amp
  else none

/-- Splitting a character list at commas, the varspec-list separator. -/
def splitOnComma : List Char → List (List Char)
  | [] => [[]]
  | c :: cs =>
    if c = ',' then [] :: splitOnComma cs
    else
      match splitOnComma cs with
      | [] => [[c]]
      | g :: gs => (c :: g) :: gs

/-- Extraction of the variable name from a varspec, stripping an explode
suffix or a prefix-length modifier as datta does. -/
def parseVarSpec (cs : List Char) : VarSpecM :=
  let base := if cs.getLast? = some '*' then cs.dropLast else cs
  ⟨String.mk (base.takeWhile (fun c => c ≠ ':'))⟩

/-- Parsing of the text between braces into operator and varspec list. -/
def parseVarList (s : String) : TemplateComponent :=
  match s.data with
  | [] => .varList .null ((splitOnComma []).map parseVarSpec)
  | c :: rest =>
    match opOfChar c with
    | some op => .varList op ((splitOnComma rest).map parseVarSpec)
    | none => .varList .null ((splitOnComma (c :: rest)).map parseVarSpec)

/-- The character scan of `datta::UriTemplate::new`: text outside braces
accumulates into literal components, text between an opening and a closing
brace becomes a variable-list component. -/
def parseLoop : Bool → List Char → List Char → List TemplateComponent
  | _, buf, [] => if buf = [] then [] else [.literal (String.mk buf)]
  | true, buf, c :: cs =>
    if c = '}' then parseVarList (String.mk buf) :: parseLoop false [] cs
    else parseLoop true (buf ++ [c]) cs
  | false, buf, c :: cs =>
    if c = '{' then
      if buf = [] then parseLoop true [] cs
      else .literal (String.mk buf) :: parseLoop true [] cs
    else parseLoop false (buf ++ [c]) cs

/-- Component list of a template string. -/
def parseTemplate (s : String) : List TemplateComponent :=
  parseLoop false [] s.data

/-- Result of the translator: either a path, or a Rust panic carrying its
message (the Rust function returns a plain `String` and unwinds on the
assertion and on the unsupported-operator arm). -/
inductive UriResult where
  | ok (path : String)
  | panic (msg : String)
deriving DecidableEq

/-- Rendering of a path-operator expression, one `/:name` per variable. -/
def slashSegs (specs : List VarSpecM) : String :=
  String.join (specs.map (fun v => "/:" ++ v.name))

/-- The `for` loop of `uritemplate_to_axum`, component by component. -/
def translateComponents : String → List TemplateComponent → UriResult
  | path, [] => .ok path
  | path, .literal l :: rest => translateComponents (path ++ l) rest
  | path, .varList op specs :: rest =>
    match op with
    | .null =>
      match specs with
      | [v] => translateComponents (path ++ ":" ++ v.name) rest
      | _ => .panic "more than one variable in the expression is not supported."
    | .slash => translateComponents (path ++ slashSegs specs) rest
    | .question => .ok path
    | .hash => .ok path
    | .amp => .panic "Unsupported operator"
    | .dot => .panic "Unsupported operator"
    | .semi => .panic "Unsupported operator"
    | .plus => .panic "Unsupported operator"

/-- The full translator `uritemplate_to_axum`. -/
def uritemplate_to_axum (s : String) : UriResult :=
  translateComponents "" (parseTemplate s)

/-! ## Section 4: route tables and `build_servient` (src/servient/builder.rs) -/

/-- The HTTP verbs routable through the `HttpRouter` extension trait. -/
inductive Verb where
  | GET
  | PUT
  | POST
  | PATCH
  | DELETE
deriving DecidableEq

/-- A handler mounted in the route table: a user handler registered on a Form
through `HttpRouter`, the canonical-document closure mounted at the root, or
the redirect closure mounted at the well-known path. -/
inductive RHandler where
  | user (id : Nat)
  | thingDoc (json : String)
  | redirect (target : String)
deriving DecidableEq

/-- A verb-to-handler table, the content of one axum `MethodRouter`. -/
abbrev MTable := List (Verb × RHandler)

/-- First handler bound to a verb in a method table. -/
def lookupVerb : MTable → Verb → Option RHandler
  | [], _ => none
  | (w, h) :: rest, v => if w = v then some h else lookupVerb rest v

/-- Whether a verb is bound in a method table. -/
def hasVerb (tbl : MTable) (v : Verb) : Bool :=
  (lookupVerb tbl v).isSome

/-- Merging a method table into another, axum `MethodRouter::merge_for_path`:
the new bindings are appended one by one; a verb already bound makes the
whole merge fail (axum panics on an overlapping method route). -/
def mergeTables : MTable → MTable → Option MTable
  | old, [] => some old
  | old, (v, h) :: rest =>
    if hasVerb old v then none else mergeTables (old ++ [(v, h)]) rest

/-- A route table: path patterns in registration order, each with its merged
method table. -/
abbrev RouteTable := List (String × MTable)

/-- The method table registered at a path, if any. -/
def lookupTable : RouteTable → String → Option MTable
  | [], _ => none
  | (q, tbl) :: rest, p => if q = p then some tbl else lookupTable rest p

/-- The handler serving a verb at a path. -/
def lookupRoute (rt : RouteTable) (p : String) (v : Verb) : Option RHandler :=
  match lookupTable rt p with
  | some tbl => lookupVerb tbl v
  | none => none

/-- The paths of a route table. -/
def pathsOf (rt : RouteTable) : List String :=
  rt.map Prod.fst

/-- axum `Router::route`: an existing entry for the same path has the new
method table merged into it, a new path is appended (its table is validated
the same way, since an axum `MethodRouter` holding two handlers for one
method cannot be constructed without panicking). -/
def addRoute : RouteTable → String → MTable → Option RouteTable
  | [], p, tbl => (mergeTables [] tbl).map (fun m => [(p, m)])
  | (q, qtbl) :: rest, p, tbl =>
    if q = p then (mergeTables qtbl tbl).map (fun m => (q, m) :: rest)
    else (addRoute rest p tbl).map (fun rt => (q, qtbl) :: rt)

/-- The thing type of src/advertise.rs lines 29-38. -/
inductive ThingTypeM where
  | thing
  | directory
deriving DecidableEq

/-- Form model: the href template and the verb-to-handler bindings that the
embedding application registered on the Form extension's `MethodRouter`. -/
structure SFormM where
  href : String
  table : List (Verb × Nat)
deriving DecidableEq

/-- The `ServientExtension` root capability of src/servient/builder.rs
lines 27-36: listening address, thing type, permissive-CORS flag. -/
structure ServientExtensionM where
  addr : Option String
  thingType : ThingTypeM
  permissiveCors : Bool
deriving DecidableEq

/-- The `Default` impl of `ServientExtension` (builder.rs lines 38-46). -/
def servientExtensionDefault : ServientExtensionM :=
  { addr := none, thingType := .thing, permissiveCors := true }

/-- The finalized schema as `build_servient` consumes it: title, top-level
forms, named property/action/event affordances each with its interaction
forms, and the root `ServientExtension` payload. -/
structure ThingM where
  title : String
  forms : List SFormM
  properties : List (String × List SFormM)
  actions : List (String × List SFormM)
  events : List (String × List SFormM)
  other : ServientExtensionM
deriving DecidableEq

/-- The flattening order of builder.rs lines 162-180: top-level forms, then
the forms of each property, action and event affordance. -/
def flattenForms (t : ThingM) : List SFormM :=
  t.forms ++ (t.properties.map Prod.snd).flatten ++ (t.actions.map Prod.snd).flatten
    ++ (t.events.map Prod.snd).flatten

/-- Comma-joining of rendered fragments. -/
def joinComma : List String → String
  | [] => ""
  | [x] => x
  | x :: xs => x ++ "," ++ joinComma xs

/-- Canonical machine-readable document of the schema, the model of
`serde_json::to_value(&thing)` at the boundary of the schema library. -/
def serializeThing (t : ThingM) : String :=
  "\x7b\"title\":\"" ++ t.title ++ "\",\"hrefs\":["
    ++ joinComma ((flattenForms t).map (fun f => "\"" ++ f.href ++ "\"")) ++ "]\x7d"

/-- The conventional discovery path (src/advertise.rs line 69). -/
def wellKnown : String := "/.well-known/wot"

/-- One route of the compiled table together with whether the CORS layer
covers it. -/
structure RouteEntry where
  path : String
  cors : Bool
  table : MTable
deriving DecidableEq

/-- The aggregate `Servient` as far as `build_servient` determines it. -/
structure ServientM where
  name : String
  routes : List RouteEntry
  httpAddr : String
  thingType : ThingTypeM
  thing : ThingM
deriving DecidableEq

/-- Outcome of a Rust call that either returns a value or panics. -/
inductive BuildOutcome (α : Type) where
  | ok (val : α)
  | panicked (msg : String)
deriving DecidableEq

/-- The Unicode White_Space property, `char::is_whitespace` of Rust. -/
def rustIsWhitespace (c : Char) : Bool :=
  let n := c.toNat
  (9 ≤ n && n ≤ 13) || n = 32 || n = 133 || n = 160 || n = 5760
    || (8192 ≤ n && n ≤ 8202) || n = 8232 || n = 8233 || n = 8239 || n = 8287 || n = 12288

/-- The first whitespace-delimited token of a string, empty when there is
none: `s.split_whitespace().next().unwrap_or("")`. -/
def firstWhitespaceToken (s : String) : String :=
  String.mk ((s.data.dropWhile (fun c => rustIsWhitespace c)).takeWhile
    (fun c => !(rustIsWhitespace c)))

/-- ASCII fragment of `str::to_lowercase`; the titles the claims exercise
stay within it. -/
def asciiLower (c : Char) : Char :=
  if 'A' ≤ c && c ≤ 'Z' then Char.ofNat (c.toNat + 32) else c

/-- Lowercasing a string, `str::to_lowercase` on its ASCII fragment. -/
def rustToLowercase (s : String) : String :=
  String.mk (s.data.map asciiLower)

/-- The loop of builder.rs lines 176-186: translate each form's href and
register or merge its method table; a translation panic or a route-merge
panic aborts everything. -/
def buildFormRoutes : List SFormM → RouteTable → BuildOutcome RouteTable
  | [], rt => .ok rt
  | f :: fs, rt =>
    match uritemplate_to_axum f.href with
    | .panic m => .panicked m
    | .ok p =>
      match addRoute rt p (f.table.map (fun vh => (vh.1, RHandler.user vh.2))) with
      | none => .panicked "Overlapping method route"
      | some rt2 => buildFormRoutes fs rt2

/-- `build_servient` (builder.rs lines 157-238) over an already finalized
schema: the form routes, the canonical document mounted at the root, the
redirect mounted at the well-known path, the CORS layer over every route
registered so far, the instance name derived from the title and the freshly
generated identifier `uuid`, and the bind-address default. -/
def buildServient (t : ThingM) (uuid : String) : BuildOutcome ServientM :=
  match buildFormRoutes (flattenForms t) [] with
  | .panicked m => .panicked m
  | .ok rt =>
    match addRoute rt "/" [(.GET, .thingDoc (serializeThing t))] with
    | none => .panicked "Overlapping method route"
    | some rt2 =>
      match addRoute rt2 wellKnown [(.GET, .redirect "/")] with
      | none => .panicked "Overlapping method route"
      | some rt3 =>
        .ok { name := rustToLowercase (firstWhitespaceToken t.title) ++ uuid
              routes := rt3.map (fun e => { path := e.1, cors := t.other.permissiveCors,
                                            table := e.2 })
              httpAddr := t.other.addr.getD "0.0.0.0:8080"
              thingType := t.other.thingType
              thing := t }

/-- The compiled route table of a built Servient. -/
def routesTable (s : ServientM) : RouteTable :=
  s.routes.map (fun e => (e.path, e.table))

/-- The paths a built Servient serves. -/
def pathsOfS (s : ServientM) : List String :=
  pathsOf (routesTable s)

/-- The handler a built Servient serves for a verb at a path. -/
def sLookup (s : ServientM) (p : String) (v : Verb) : Option RHandler :=
  lookupRoute (routesTable s) p v

/-! ## Section 5: the advertiser (src/advertise.rs) -/

/-- `ThingType::to_service_type` (advertise.rs lines 41-47). -/
def toServiceType : ThingTypeM → String
  | .thing => "_wot"
  | .directory => "_directory._sub._wot"

/-- `ThingType::to_dns_type` (advertise.rs lines 48-54). -/
def toDnsType : ThingTypeM → String
  | .thing => "Thing"
  | .directory => "Directory"

/-- `ServiceBuilder` state (advertise.rs lines 74-95), as `add_service`
initialises it before the setters run. -/
structure ServiceBuilderM where
  name : String
  hostname : String
  ips : List String
  ty : ThingTypeM
  port : Nat
  path : String
deriving DecidableEq

/-- `ServiceBuilder::new` via `Advertiser::add_service`: thing type defaults
to `Thing`, port to 8080 and the document path to the well-known path. -/
def serviceBuilderNew (hostname : String) (ips : List String) (name : String) : ServiceBuilderM :=
  { name := name, hostname := hostname, ips := ips, ty := .thing, port := 8080,
    path := wellKnown }

/-- The DNS-SD record registered by `ServiceBuilder::build`, the model of the
`mdns_sd::ServiceInfo` handed to `register`. -/
structure ServiceRecordM where
  domain : String
  name : String
  hostname : String
  ips : List String
  port : Nat
  props : List (String × String)
deriving DecidableEq

/-- `ServiceBuilder::build` (advertise.rs lines 139-169): the service domain
is the thing type's service type followed by "._tcp.local.", and the TXT
properties are exactly the document path under "td" and the DNS type string
under "type". -/
def buildService (b : ServiceBuilderM) : ServiceRecordM :=
  { domain := toServiceType b.ty ++ "._tcp.local."
    name := b.name
    hostname := b.hostname
    ips := b.ips
    port := b.port
    props := [("td", b.path), ("type", toDnsType b.ty)] }

/-- Property lookup in a TXT property list. -/
def lookupProp : List (String × String) → String → Option String
  | [], _ => none
  | (k, v) :: rest, key => if k = key then some v else lookupProp rest key

/-! ## Section 6: concrete sample schemas used to instantiate the theorems -/

/-- Placeholder Servient used when extracting from a panicked build. -/
def fallbackServient (t : ThingM) : ServientM where
  name := ""
  routes := []
  httpAddr := ""
  thingType := .thing
  thing := t

/-- The Servient a successful build produces, with a placeholder value in
the panicking case. -/
def extractBuilt (t : ThingM) (uuid : String) : ServientM :=
  match buildServient t uuid with
  | .ok s => s
  | .panicked _ => fallbackServient t

/-- Sample schema with forms in every position, including two property
forms sharing one href with disjoint verbs. -/
def sampleThing : ThingM where
  title := "Test Thing"
  forms := [SFormM.mk "/f" [(Verb.POST, 7)]]
  properties := [("on", [SFormM.mk "/properties/on" [(Verb.GET, 1), (Verb.PUT, 2)]]),
    ("on2", [SFormM.mk "/properties/on" [(Verb.POST, 3)]])]
  actions := [("fade", [SFormM.mk "/actions/fade/\x7baction_id\x7d" [(Verb.POST, 4)]])]
  events := []
  other := servientExtensionDefault

/-- Sample schema with no forms at all. -/
def emptyThing : ThingM where
  title := "t"
  forms := []
  properties := []
  actions := []
  events := []
  other := servientExtensionDefault

/-- Sample schema whose single form href has a two-variable simple
expression. -/
def badThing : ThingM where
  title := "b"
  forms := [SFormM.mk "\x7ba,b\x7d" []]
  properties := []
  actions := []
  events := []
  other := servientExtensionDefault

/-- Sample schema whose title is whitespace only. -/
def wsThing : ThingM where
  title := "  \t "
  forms := []
  properties := []
  actions := []
  events := []
  other := servientExtensionDefault

/-- The built sample Servient. -/
def sampleBuilt : ServientM := extractBuilt sampleThing "uuid0"

/-- The built no-forms Servient. -/
def emptyBuilt : ServientM := extractBuilt emptyThing "u"

/-- The built whitespace-titled Servient. -/
def wsBuilt : ServientM := extractBuilt wsThing "u"

/-- Two builds of the same schema with distinct generated identifiers. -/
def sampleBuiltA : ServientM := extractBuilt sampleThing "aaa"

/-- Second build of the same schema, distinct identifier. -/
def sampleBuiltB : ServientM := extractBuilt sampleThing "bbb"

/-- Sample registry with a base payload and two earlier contributions. -/
def sampleRegistry : RegistryM Nat Nat :=
  .consPlus 5 1 (.cons 2 .nil)

/-! ## Section 7: helper lemmas about the route machinery -/

/-- Verb lookup distributes over table concatenation. -/
theorem lookupVerb_append (t1 t2 : MTable) (v : Verb) :
    lookupVerb (t1 ++ t2) v =
      match lookupVerb t1 v with
      | some h => some h
      | none => lookupVerb t2 v := by
  induction t1 with
  | nil => simp [lookupVerb]
  | cons x rest ih =>
    obtain ⟨w, g⟩ := x
    by_cases hw : w = v <;> simp [lookupVerb, hw, ih]

/-- A verb lookup that succeeds names a binding of the table. -/
theorem lookupVerb_mem {tbl : MTable} {v : Verb} {h : RHandler}
    (hl : lookupVerb tbl v = some h) : (v, h) ∈ tbl := by
  induction tbl with
  | nil => simp [lookupVerb] at hl
  | cons x rest ih =>
    obtain ⟨w, g⟩ := x
    by_cases hw : w = v
    · subst hw
      simp [lookupVerb] at hl
      simp [hl]
    · simp [lookupVerb, hw] at hl
      exact List.mem_cons_of_mem _ (ih hl)

/-- An unbound verb stays unbound through `hasVerb`. -/
theorem lookupVerb_of_hasVerb_false {tbl : MTable} {v : Verb}
    (hw : hasVerb tbl v = false) : lookupVerb tbl v = none := by
  unfold hasVerb at hw
  cases hx : lookupVerb tbl v with
  | none => rfl
  | some g => simp [hx] at hw

/-- Merging preserves every binding of the original table. -/
theorem mergeTables_preserve {old new m : MTable} {v : Verb} {h : RHandler}
    (hm : mergeTables old new = some m) (hl : lookupVerb old v = some h) :
    lookupVerb m v = some h := by
  induction new generalizing old with
  | nil =>
    simp [mergeTables] at hm
    exact hm ▸ hl
  | cons x rest ih =>
    obtain ⟨w, g⟩ := x
    cases hw : hasVerb old w with
    | true => simp [mergeTables, hw] at hm
    | false =>
      simp [mergeTables, hw] at hm
      apply ih hm
      rw [lookupVerb_append]
      simp [hl]

/-- Merging installs every binding of the new table. -/
theorem mergeTables_new {old new m : MTable} {v : Verb} {h : RHandler}
    (hm : mergeTables old new = some m) (hl : lookupVerb new v = some h) :
    lookupVerb m v = some h := by
  induction new generalizing old with
  | nil => simp [lookupVerb] at hl
  | cons x rest ih =>
    obtain ⟨w, g⟩ := x
    cases hw : hasVerb old w with
    | true => simp [mergeTables, hw] at hm
    | false =>
      simp [mergeTables, hw] at hm
      by_cases hv : w = v
      · subst hv
        simp [lookupVerb] at hl
        subst hl
        apply mergeTables_preserve hm
        rw [lookupVerb_append]
        simp [lookupVerb_of_hasVerb_false hw, lookupVerb]
      · simp [lookupVerb, hv] at hl
        exact ih hm hl

/-- A verb bound in the table being merged in was unbound before. -/
theorem mergeTables_notin_old {old new m : MTable} {v : Verb} {h : RHandler}
    (hm : mergeTables old new = some m) (hl : lookupVerb new v = some h) :
    lookupVerb old v = none := by
  induction new generalizing old with
  | nil => simp [lookupVerb] at hl
  | cons x rest ih =>
    obtain ⟨w, g⟩ := x
    cases hw : hasVerb old w with
    | true => simp [mergeTables, hw] at hm
    | false =>
      simp [mergeTables, hw] at hm
      by_cases hv : w = v
      · subst hv
        exact lookupVerb_of_hasVerb_false hw
      · simp [lookupVerb, hv] at hl
        have hnone := ih hm hl
        rw [lookupVerb_append] at hnone
        cases hx : lookupVerb old v with
        | none => rfl
        | some g2 => simp [hx] at hnone

/-- Every binding of a merged table comes from one of the two sides. -/
theorem mergeTables_complete {old new m : MTable} {v : Verb} {h : RHandler}
    (hm : mergeTables old new = some m) (hl : lookupVerb m v = some h) :
    lookupVerb old v = some h ∨ lookupVerb new v = some h := by
  induction new generalizing old with
  | nil =>
    simp [mergeTables] at hm
    exact Or.inl (hm ▸ hl)
  | cons x rest ih =>
    obtain ⟨w, g⟩ := x
    cases hw : hasVerb old w with
    | true => simp [mergeTables, hw] at hm
    | false =>
      simp [mergeTables, hw] at hm
      rcases ih hm with ho | hr
      · rw [lookupVerb_append] at ho
        cases hx : lookupVerb old v with
        | some h2 =>
          left
          rw [hx] at ho
          exact ho
        | none =>
          rw [hx] at ho
          by_cases hv : w = v
          · subst hv
            simp [lookupVerb] at ho
            subst ho
            simp [lookupVerb]
          · simp [lookupVerb, hv] at ho
      · by_cases hv : w = v
        · exfalso
          have hnone := mergeTables_notin_old hm hr
          rw [lookupVerb_append] at hnone
          subst hv
          cases hx : lookupVerb old w with
          | some h2 => simp [hx] at hnone
          | none => simp [hx, lookupVerb] at hnone
        · right
          simp [lookupVerb, hv]
          exact hr

/-- A binding present in the table being merged in is found by lookup in
that table, whenever the merge succeeds. -/
theorem mergeTables_mem {old new m : MTable} {v : Verb} {h : RHandler}
    (hm : mergeTables old new = some m) (hmem : (v, h) ∈ new) :
    lookupVerb new v = some h := by
  induction new generalizing old with
  | nil => cases hmem
  | cons x rest ih =>
    obtain ⟨w, g⟩ := x
    cases hw : hasVerb old w with
    | true => simp [mergeTables, hw] at hm
    | false =>
      simp [mergeTables, hw] at hm
      rcases List.mem_cons.mp hmem with heq | hmem2
      · rw [Prod.ext_iff] at heq
        obtain ⟨h1, h2⟩ := heq
        subst h1
        subst h2
        simp [lookupVerb]
      · by_cases hv : w = v
        · exfalso
          subst hv
          have hr := ih hm hmem2
          have hnone := mergeTables_notin_old hm hr
          rw [lookupVerb_append] at hnone
          cases hx : lookupVerb old w with
          | some h2 => simp [hx] at hnone
          | none => simp [hx, lookupVerb] at hnone
        · simp [lookupVerb, hv]
          exact ih hm hmem2

/-- Registering a route preserves every handler already served. -/
theorem addRoute_preserve {p : String} {tbl : MTable} {rt rt' : RouteTable}
    {q : String} {v : Verb} {h : RHandler}
    (ha : addRoute rt p tbl = some rt') (hl : lookupRoute rt q v = some h) :
    lookupRoute rt' q v = some h := by
  induction rt generalizing rt' with
  | nil => simp [lookupRoute, lookupTable] at hl
  | cons x rest ih =>
    obtain ⟨r, rtbl⟩ := x
    by_cases hr : r = p
    · subst hr
      simp [addRoute] at ha
      cases hm : mergeTables rtbl tbl with
      | none => simp [hm] at ha
      | some m =>
        simp [hm] at ha
        subst ha
        by_cases hq : r = q
        · subst hq
          simp [lookupRoute, lookupTable] at hl ⊢
          exact mergeTables_preserve hm hl
        · simp [lookupRoute, lookupTable, hq] at hl ⊢
          exact hl
    · simp [addRoute, hr] at ha
      cases ha2 : addRoute rest p tbl with
      | none => simp [ha2] at ha
      | some rest' =>
        simp [ha2] at ha
        subst ha
        by_cases hq : r = q
        · subst hq
          simp [lookupRoute, lookupTable] at hl ⊢
          exact hl
        · simp [lookupRoute, lookupTable, hq] at hl ⊢
          exact ih ha2 hl

/-- Registering a route serves every binding of the registered table. -/
theorem addRoute_mem {p : String} {tbl : MTable} {rt rt' : RouteTable}
    {v : Verb} {h : RHandler}
    (ha : addRoute rt p tbl = some rt') (hmem : (v, h) ∈ tbl) :
    lookupRoute rt' p v = some h := by
  induction rt generalizing rt' with
  | nil =>
    simp [addRoute] at ha
    cases hm : mergeTables [] tbl with
    | none => simp [hm] at ha
    | some m =>
      simp [hm] at ha
      subst ha
      simp [lookupRoute, lookupTable]
      exact mergeTables_new hm (mergeTables_mem hm hmem)
  | cons x rest ih =>
    obtain ⟨r, rtbl⟩ := x
    by_cases hr : r = p
    · subst hr
      simp [addRoute] at ha
      cases hm : mergeTables rtbl tbl with
      | none => simp [hm] at ha
      | some m =>
        simp [hm] at ha
        subst ha
        simp [lookupRoute, lookupTable]
        exact mergeTables_new hm (mergeTables_mem hm hmem)
    · simp [addRoute, hr] at ha
      cases ha2 : addRoute rest p tbl with
      | none => simp [ha2] at ha
      | some rest' =>
        simp [ha2] at ha
        subst ha
        simp [lookupRoute, lookupTable, hr]
        exact ih ha2


/-- Every handler served after a route registration either was served
before, or is one of the registered bindings at the registered path. -/
theorem addRoute_complete {p : String} {tbl : MTable} {rt rt' : RouteTable}
    {q : String} {v : Verb} {h : RHandler}
    (ha : addRoute rt p tbl = some rt') (hl : lookupRoute rt' q v = some h) :
    lookupRoute rt q v = some h ∨ (q = p ∧ lookupVerb tbl v = some h) := by
  induction rt generalizing rt' with
  | nil =>
    simp [addRoute] at ha
    cases hm : mergeTables [] tbl with
    | none => simp [hm] at ha
    | some m =>
      simp [hm] at ha
      subst ha
      by_cases hq : p = q
      · subst hq
        simp [lookupRoute, lookupTable] at hl
        rcases mergeTables_complete hm hl with h0 | h1
        · simp [lookupVerb] at h0
        · exact Or.inr ⟨rfl, h1⟩
      · exfalso
        simp [lookupRoute, lookupTable, hq] at hl
  | cons x rest ih =>
    obtain ⟨r, rtbl⟩ := x
    by_cases hr : r = p
    · subst hr
      simp [addRoute] at ha
      cases hm : mergeTables rtbl tbl with
      | none => simp [hm] at ha
      | some m =>
        simp [hm] at ha
        subst ha
        by_cases hq : r = q
        · subst hq
          simp [lookupRoute, lookupTable] at hl
          rcases mergeTables_complete hm hl with h0 | h1
          · left
            simp [lookupRoute, lookupTable]
            exact h0
          · exact Or.inr ⟨rfl, h1⟩
        · left
          simp [lookupRoute, lookupTable, hq] at hl
          simp [lookupRoute, lookupTable, hq]
          exact hl
    · simp [addRoute, hr] at ha
      cases ha2 : addRoute rest p tbl with
      | none => simp [ha2] at ha
      | some rest' =>
        simp [ha2] at ha
        subst ha
        by_cases hq : r = q
        · subst hq
          left
          simp [lookupRoute, lookupTable] at hl
          simp [lookupRoute, lookupTable]
          exact hl
        · simp [lookupRoute, lookupTable, hq] at hl
          rcases ih ha2 hl with h0 | h1
          · left
            simp [lookupRoute, lookupTable, hq]
            exact h0
          · exact Or.inr h1

/-- The paths after a route registration are the previous paths together
with the registered path. -/
theorem addRoute_paths {p : String} {tbl : MTable} {rt rt' : RouteTable}
    (ha : addRoute rt p tbl = some rt') (q : String) :
    q ∈ pathsOf rt' ↔ q ∈ pathsOf rt ∨ q = p := by
  induction rt generalizing rt' with
  | nil =>
    simp [addRoute] at ha
    cases hm : mergeTables [] tbl with
    | none => simp [hm] at ha
    | some m =>
      simp [hm] at ha
      subst ha
      have e1 : pathsOf [(p, m)] = [p] := rfl
      have e2 : pathsOf ([] : RouteTable) = [] := rfl
      rw [e1, e2]
      simp
  | cons x rest ih =>
    obtain ⟨r, rtbl⟩ := x
    by_cases hr : r = p
    · subst hr
      simp [addRoute] at ha
      cases hm : mergeTables rtbl tbl with
      | none => simp [hm] at ha
      | some m =>
        simp [hm] at ha
        subst ha
        have e1 : pathsOf ((r, m) :: rest) = r :: pathsOf rest := rfl
        have e2 : pathsOf ((r, rtbl) :: rest) = r :: pathsOf rest := rfl
        rw [e1, e2]
        simp only [List.mem_cons]
        tauto
    · simp [addRoute, hr] at ha
      cases ha2 : addRoute rest p tbl with
      | none => simp [ha2] at ha
      | some rest' =>
        simp [ha2] at ha
        subst ha
        have e1 : pathsOf ((r, rtbl) :: rest') = r :: pathsOf rest' := rfl
        have e2 : pathsOf ((r, rtbl) :: rest) = r :: pathsOf rest := rfl
        rw [e1, e2]
        simp only [List.mem_cons]
        rw [ih ha2]
        tauto

/-- Compiling forms preserves every handler already served. -/
theorem bfr_preserve {fs : List SFormM} {rt rt' : RouteTable}
    {q : String} {v : Verb} {h : RHandler}
    (hb : buildFormRoutes fs rt = .ok rt') (hl : lookupRoute rt q v = some h) :
    lookupRoute rt' q v = some h := by
  induction fs generalizing rt with
  | nil =>
    simp [buildFormRoutes] at hb
    exact hb ▸ hl
  | cons g gs ih =>
    simp only [buildFormRoutes] at hb
    cases hu : uritemplate_to_axum g.href with
    | panic m => rw [hu] at hb; simp at hb
    | ok p =>
      rw [hu] at hb
      simp at hb
      cases ha : addRoute rt p (g.table.map fun vh => (vh.1, RHandler.user vh.2)) with
      | none => rw [ha] at hb; simp at hb
      | some rt2 =>
        rw [ha] at hb
        simp at hb
        exact ih hb (addRoute_preserve ha hl)

/-- A successful compilation translated every form's href. -/
theorem bfr_translate {fs : List SFormM} {rt rt' : RouteTable}
    (hb : buildFormRoutes fs rt = .ok rt') :
    ∀ f ∈ fs, ∃ p, uritemplate_to_axum f.href = .ok p := by
  induction fs generalizing rt with
  | nil =>
    intro f hf
    cases hf
  | cons g gs ih =>
    simp only [buildFormRoutes] at hb
    cases hu : uritemplate_to_axum g.href with
    | panic m => rw [hu] at hb; simp at hb
    | ok p =>
      rw [hu] at hb
      simp at hb
      cases ha : addRoute rt p (g.table.map fun vh => (vh.1, RHandler.user vh.2)) with
      | none => rw [ha] at hb; simp at hb
      | some rt2 =>
        rw [ha] at hb
        simp at hb
        intro f hf
        rcases List.mem_cons.mp hf with rfl | hf2
        · exact ⟨p, hu⟩
        · exact ih hb f hf2

/-- Every binding a form declares is served at its translated path. -/
theorem bfr_mem {fs : List SFormM} {rt rt' : RouteTable} {f : SFormM}
    {p : String} {v : Verb} {uid : Nat}
    (hb : buildFormRoutes fs rt = .ok rt') (hf : f ∈ fs)
    (hp : uritemplate_to_axum f.href = .ok p) (hmem : (v, uid) ∈ f.table) :
    lookupRoute rt' p v = some (.user uid) := by
  induction fs generalizing rt with
  | nil => cases hf
  | cons g gs ih =>
    simp only [buildFormRoutes] at hb
    cases hu : uritemplate_to_axum g.href with
    | panic m => rw [hu] at hb; simp at hb
    | ok p2 =>
      rw [hu] at hb
      simp at hb
      cases ha : addRoute rt p2 (g.table.map fun vh => (vh.1, RHandler.user vh.2)) with
      | none => rw [ha] at hb; simp at hb
      | some rt2 =>
        rw [ha] at hb
        simp at hb
        rcases List.mem_cons.mp hf with rfl | hf2
        · rw [hp] at hu
          injection hu with he
          subst he
          have hmem2 : (v, RHandler.user uid) ∈
              f.table.map (fun vh => (vh.1, RHandler.user vh.2)) :=
            List.mem_map.mpr ⟨(v, uid), hmem, rfl⟩
          exact bfr_preserve hb (addRoute_mem ha hmem2)
        · exact ih hb hf2

/-- Every handler served after compiling forms either was served before, or
is a binding declared by one of the forms at its translated path. -/
theorem bfr_complete {fs : List SFormM} {rt rt' : RouteTable}
    {q : String} {v : Verb} {h : RHandler}
    (hb : buildFormRoutes fs rt = .ok rt') (hl : lookupRoute rt' q v = some h) :
    lookupRoute rt q v = some h ∨
      ∃ f ∈ fs, ∃ uid, uritemplate_to_axum f.href = .ok q ∧ (v, uid) ∈ f.table
        ∧ h = .user uid := by
  induction fs generalizing rt with
  | nil =>
    simp [buildFormRoutes] at hb
    exact Or.inl (hb ▸ hl)
  | cons g gs ih =>
    simp only [buildFormRoutes] at hb
    cases hu : uritemplate_to_axum g.href with
    | panic m => rw [hu] at hb; simp at hb
    | ok p2 =>
      rw [hu] at hb
      simp at hb
      cases ha : addRoute rt p2 (g.table.map fun vh => (vh.1, RHandler.user vh.2)) with
      | none => rw [ha] at hb; simp at hb
      | some rt2 =>
        rw [ha] at hb
        simp at hb
        rcases ih hb with h0 | h1
        · rcases addRoute_complete ha h0 with h2 | ⟨rfl, h3⟩
          · exact Or.inl h2
          · right
            rcases List.mem_map.mp (lookupVerb_mem h3) with ⟨⟨v2, uid⟩, hmem, heq⟩
            rw [Prod.ext_iff] at heq
            obtain ⟨hv2, hh⟩ := heq
            subst hv2
            exact ⟨g, List.mem_cons_self g gs, uid, hu, hmem, hh.symm⟩
        · rcases h1 with ⟨f, hf, uid, h4, h5, h6⟩
          exact Or.inr ⟨f, List.mem_cons_of_mem _ hf, uid, h4, h5, h6⟩

/-- The paths after compiling forms are the previous paths together with the
translated hrefs of the forms. -/
theorem bfr_paths {fs : List SFormM} {rt rt' : RouteTable}
    (hb : buildFormRoutes fs rt = .ok rt') (q : String) :
    q ∈ pathsOf rt' ↔ q ∈ pathsOf rt ∨ ∃ f ∈ fs, uritemplate_to_axum f.href = .ok q := by
  induction fs generalizing rt with
  | nil =>
    simp [buildFormRoutes] at hb
    subst hb
    simp
  | cons g gs ih =>
    simp only [buildFormRoutes] at hb
    cases hu : uritemplate_to_axum g.href with
    | panic m => rw [hu] at hb; simp at hb
    | ok p2 =>
      rw [hu] at hb
      simp at hb
      cases ha : addRoute rt p2 (g.table.map fun vh => (vh.1, RHandler.user vh.2)) with
      | none => rw [ha] at hb; simp at hb
      | some rt2 =>
        rw [ha] at hb
        simp at hb
        rw [ih hb, addRoute_paths ha q]
        constructor
        · rintro ((hx | rfl) | ⟨f, hf, hfq⟩)
          · exact Or.inl hx
          · exact Or.inr ⟨g, List.mem_cons_self g gs, hu⟩
          · exact Or.inr ⟨f, List.mem_cons_of_mem _ hf, hfq⟩
        · rintro (hx | ⟨f, hf, hfq⟩)
          · exact Or.inl (Or.inl hx)
          · rcases List.mem_cons.mp hf with rfl | hf2
            · rw [hu] at hfq
              injection hfq with he
              exact Or.inl (Or.inr he.symm)
            · exact Or.inr ⟨f, hf2, hfq⟩

/-- A successful `build_servient` decomposes into a successful form
compilation, the two canonical route registrations, and the final record. -/
theorem buildServient_ok {t : ThingM} {uuid : String} {s : ServientM}
    (h : buildServient t uuid = .ok s) :
    ∃ rt rt2 rt3,
      buildFormRoutes (flattenForms t) [] = .ok rt ∧
      addRoute rt "/" [(.GET, .thingDoc (serializeThing t))] = some rt2 ∧
      addRoute rt2 wellKnown [(.GET, .redirect "/")] = some rt3 ∧
      s = { name := rustToLowercase (firstWhitespaceToken t.title) ++ uuid
            routes := rt3.map (fun e => { path := e.1, cors := t.other.permissiveCors,
                                          table := e.2 })
            httpAddr := t.other.addr.getD "0.0.0.0:8080"
            thingType := t.other.thingType
            thing := t } := by
  unfold buildServient at h
  cases hb : buildFormRoutes (flattenForms t) [] with
  | panicked m => rw [hb] at h; simp at h
  | ok rt =>
    rw [hb] at h
    simp at h
    cases ha1 : addRoute rt "/" [(.GET, .thingDoc (serializeThing t))] with
    | none => rw [ha1] at h; simp at h
    | some rt2 =>
      rw [ha1] at h
      simp at h
      cases ha2 : addRoute rt2 wellKnown [(.GET, .redirect "/")] with
      | none => rw [ha2] at h; simp at h
      | some rt3 =>
        rw [ha2] at h
        simp at h
        exact ⟨rt, rt2, rt3, rfl, ha1, ha2, h.symm⟩

/-- Projecting the compiled route table out of the final record recovers the
table the registrations produced. -/
theorem routesTable_mk (nm had : String) (tt : ThingTypeM) (th : ThingM) (c : Bool)
    (rt : RouteTable) :
    routesTable (ServientM.mk nm
      (rt.map (fun e => { path := e.1, cors := c, table := e.2 })) had tt th) = rt := by
  unfold routesTable
  simp only [List.map_map]
  have he : ((fun (e : RouteEntry) => (e.path, e.table)) ∘
      (fun (e : String × MTable) => ({ path := e.1, cors := c, table := e.2 } : RouteEntry)))
      = (fun (e : String × MTable) => e) := rfl
  rw [he]
  exact List.map_id rt

/-- The empty string is a left identity of string append. -/
theorem string_nil_append (s : String) : String.mk [] ++ s = s := rfl

/-- String append cancels on the left. -/
theorem string_append_left_cancel {p s1 s2 : String} (h : p ++ s1 = p ++ s2) :
    s1 = s2 := by
  have hd : p.data ++ s1.data = p.data ++ s2.data := congrArg String.data h
  exact congrArg String.mk (List.append_cancel_left hd)

/-- A lookup in a one-binding table identifies the verb and the handler. -/
theorem lookupVerb_singleton {w : Verb} {g hd : RHandler} {v : Verb}
    (h : lookupVerb [(w, g)] v = some hd) : v = w ∧ hd = g := by
  by_cases hw : w = v
  · subst hw
    simp [lookupVerb] at h
    exact ⟨rfl, h.symm⟩
  · simp [lookupVerb, hw] at h

/-- The instance name of a successfully built Servient. -/
theorem buildServient_name {t : ThingM} {uuid : String} {s : ServientM}
    (h : buildServient t uuid = .ok s) :
    s.name = rustToLowercase (firstWhitespaceToken t.title) ++ uuid := by
  obtain ⟨rt, rt2, rt3, hb, ha1, ha2, hs⟩ := buildServient_ok h
  subst hs
  rfl

/-! ## Section 8: the claims -/

/-- C1: the capability-propagation combinator of `ConsPlus` is claimed to be
uniform across all nine schema positions.  The code is not: at the
`PropertyAffordance` position the third slot is built from the
`InteractionAffordance` position of the third chain element, and at the
`ArraySchema` position the third slot repeats the second chain element's
`ArraySchema` instead of using the third element's.  This theorem evaluates
the transcription of the source at a chain of three distinct extension
variables, exhibiting both deviations from the uniform combinator. -/
theorem c1_consplus_positions :
    assocPos (.consPlus (.var 0 []) (.var 1 []) (.var 2 [])) .propertyAffordance
      = .consPlus (assocPos (.var 0 []) .propertyAffordance)
          (assocPos (.var 1 []) .propertyAffordance)
          (assocPos (.var 2 []) .interactionAffordance)
    ∧ assocPos (.consPlus (.var 0 []) (.var 1 []) (.var 2 [])) .arraySchema
      = .consPlus (assocPos (.var 0 []) .arraySchema)
          (assocPos (.var 1 []) .arraySchema)
          (assocPos (.var 1 []) .arraySchema)
    ∧ assocPos (.consPlus (.var 0 []) (.var 1 []) (.var 2 [])) .propertyAffordance
      ≠ .consPlus (assocPos (.var 0 []) .propertyAffordance)
          (assocPos (.var 1 []) .propertyAffordance)
          (assocPos (.var 2 []) .propertyAffordance)
    ∧ assocPos (.consPlus (.var 0 []) (.var 1 []) (.var 2 [])) .arraySchema
      ≠ .consPlus (assocPos (.var 0 []) .arraySchema)
          (assocPos (.var 1 []) .arraySchema)
          (assocPos (.var 2 []) .arraySchema) := by
  refine ⟨rfl, rfl, by decide, by decide⟩

/-- C9: extending a registry chain preserves the base data field and every
previously contributed capability, and only prepends the new one. -/
theorem c9_ext_frame {α β : Type} : ∀ (r : RegistryM α β) (v : β),
    (r.ext v).baseField = r.baseField
    ∧ (r.ext v).caps = v :: r.caps
    ∧ (∀ c, c ∈ r.caps → c ∈ (r.ext v).caps) := by
  intro r v
  cases r with
  | nilPlus f =>
    refine ⟨rfl, rfl, ?_⟩
    intro c hc
    cases hc
  | consPlus f hd tl =>
    refine ⟨rfl, rfl, ?_⟩
    intro c hc
    exact List.mem_cons_of_mem _ hc

/-- Witness for C9 at the sample registry and the contribution 9: the base
field and the earlier capability 1 survive the extension. -/
theorem c9_ext_frame_witness :
    ((sampleRegistry.ext 9).baseField = sampleRegistry.baseField
      ∧ (sampleRegistry.ext 9).caps = 9 :: sampleRegistry.caps)
    ∧ 1 ∈ (sampleRegistry.ext 9).caps := by
  have h := @c9_ext_frame Nat Nat sampleRegistry 9
  exact ⟨⟨h.1, h.2.1⟩, h.2.2 1 (by decide)⟩

/-- C5: the translator copies literal components verbatim, renders a
one-variable simple expression in place as a named parameter, renders a
path-operator expression as one segment per variable, stops at a query or
fragment expression discarding the rest, and maps the three cited examples
as the spec states. -/
theorem c5_translator_rules :
    uritemplate_to_axum "/properties\x7b/prop,sub\x7d" = .ok "/properties/:prop/:sub"
    ∧ uritemplate_to_axum "/actions/fade/\x7baction_id\x7d" = .ok "/actions/fade/:action_id"
    ∧ uritemplate_to_axum "/weather/\x7b?lat,long\x7d" = .ok "/weather/"
    ∧ (∀ path l rest, translateComponents path (.literal l :: rest)
        = translateComponents (path ++ l) rest)
    ∧ (∀ path v rest, translateComponents path (.varList .null [v] :: rest)
        = translateComponents (path ++ ":" ++ v.name) rest)
    ∧ (∀ path specs rest, translateComponents path (.varList .slash specs :: rest)
        = translateComponents (path ++ slashSegs specs) rest)
    ∧ (∀ path specs rest, translateComponents path (.varList .question specs :: rest) = .ok path)
    ∧ (∀ path specs rest, translateComponents path (.varList .hash specs :: rest) = .ok path) := by
  refine ⟨by decide, by decide, by decide, ?_, ?_, ?_, ?_, ?_⟩ <;> intros <;> rfl

/-- C8: every service built through the advertiser's builder registers under
the directory subtype domain exactly when the thing type is Directory (and
under the base WoT domain otherwise), and carries exactly the two TXT
properties: the document path under td (defaulting to the well-known path)
and the DNS type string under type. -/
theorem c8_advertise_record :
    (∀ b : ServiceBuilderM,
      (buildService b).domain
          = (if b.ty = ThingTypeM.directory then "_directory._sub._wot._tcp.local."
             else "_wot._tcp.local.")
      ∧ (buildService b).props.length = 2
      ∧ lookupProp (buildService b).props "td" = some b.path
      ∧ lookupProp (buildService b).props "type"
          = some (if b.ty = ThingTypeM.directory then "Directory" else "Thing"))
    ∧ (∀ hostname ips nm, (serviceBuilderNew hostname ips nm).path = wellKnown
        ∧ (serviceBuilderNew hostname ips nm).ty = ThingTypeM.thing) := by
  constructor
  · intro b
    obtain ⟨nm, host, ips, ty, port, path⟩ := b
    cases ty with
    | thing => exact ⟨rfl, rfl, rfl, rfl⟩
    | directory => exact ⟨rfl, rfl, rfl, rfl⟩
  · intro hostname ips nm
    exact ⟨rfl, rfl⟩

/-- C4: every successfully built route table serves the canonical serialized
Thing document on GET at the root path, and an HTTP redirect to the root on
GET at the well-known discovery path. -/
theorem c4_canonical_routes {t : ThingM} {uuid : String} {s : ServientM}
    (h : buildServient t uuid = .ok s) :
    sLookup s "/" .GET = some (.thingDoc (serializeThing t))
    ∧ sLookup s wellKnown .GET = some (.redirect "/") := by
  obtain ⟨rt, rt2, rt3, hb, ha1, ha2, hs⟩ := buildServient_ok h
  subst hs
  unfold sLookup
  rw [routesTable_mk]
  constructor
  · exact addRoute_preserve ha2 (addRoute_mem ha1 (by simp))
  · exact addRoute_mem ha2 (by simp)

/-- Witness for C4 at the sample schema. -/
theorem c4_canonical_routes_witness :
    sLookup sampleBuilt "/" .GET = some (.thingDoc (serializeThing sampleThing))
    ∧ sLookup sampleBuilt wellKnown .GET = some (.redirect "/") :=
  c4_canonical_routes (show buildServient sampleThing "uuid0" = .ok sampleBuilt by decide)

/-- C6: the permissive-CORS flag defaults to on, and the built route table
carries the cross-origin policy on every route exactly when the flag is set
(and on none when it is disabled). -/
theorem c6_cors :
    servientExtensionDefault.permissiveCors = true
    ∧ (∀ (t : ThingM) (uuid : String) (s : ServientM), buildServient t uuid = .ok s →
        ∀ e ∈ s.routes, e.cors = t.other.permissiveCors) := by
  refine ⟨rfl, ?_⟩
  intro t uuid s h e he
  obtain ⟨rt, rt2, rt3, hb, ha1, ha2, hs⟩ := buildServient_ok h
  subst hs
  rcases List.mem_map.mp he with ⟨x, hx, hxe⟩
  subst hxe
  rfl

/-- Witness for C6 at the sample schema, whose extension is the default:
the first compiled route carries the policy. -/
theorem c6_cors_witness :
    servientExtensionDefault.permissiveCors = true
    ∧ (sampleBuilt.routes.headD (RouteEntry.mk "" false [])).cors
        = sampleThing.other.permissiveCors := by
  refine ⟨c6_cors.1, ?_⟩
  exact c6_cors.2 sampleThing "uuid0" sampleBuilt (by decide) _ (by decide)

/-- C7: the advertised instance name is the lowercased first
whitespace-delimited token of the title concatenated with the generated
identifier, and two builds from identically titled schemas with distinct
generated identifiers receive distinct names. -/
theorem c7_instance_name :
    (∀ (t : ThingM) (uuid : String) (s : ServientM), buildServient t uuid = .ok s →
      s.name = rustToLowercase (firstWhitespaceToken t.title) ++ uuid)
    ∧ (∀ (t1 t2 : ThingM) (u1 u2 : String) (s1 s2 : ServientM),
        buildServient t1 u1 = .ok s1 → buildServient t2 u2 = .ok s2 →
        t1.title = t2.title → u1 ≠ u2 → s1.name ≠ s2.name) := by
  constructor
  · intro t uuid s h
    exact buildServient_name h
  · intro t1 t2 u1 u2 s1 s2 h1 h2 ht hu
    rw [buildServient_name h1, buildServient_name h2, ht]
    intro heq
    exact hu (string_append_left_cancel heq)

/-- Witness for C7: two builds of the sample schema with identifiers aaa and
bbb receive the derived name and distinct names. -/
theorem c7_instance_name_witness :
    sampleBuiltA.name = rustToLowercase (firstWhitespaceToken sampleThing.title) ++ "aaa"
    ∧ sampleBuiltA.name ≠ sampleBuiltB.name := by
  constructor
  · exact c7_instance_name.1 sampleThing "aaa" sampleBuiltA (by decide)
  · exact c7_instance_name.2 sampleThing sampleThing "aaa" "bbb" sampleBuiltA sampleBuiltB
      (by decide) (by decide) rfl (by decide)

/-- C10: a schema whose title is empty or whitespace-only still builds a
name: the title contributes the empty token and the instance name is exactly
the generated identifier. -/
theorem c10_whitespace_title {t : ThingM} {uuid : String} {s : ServientM}
    (hws : ∀ c ∈ t.title.data, rustIsWhitespace c = true)
    (h : buildServient t uuid = .ok s) :
    s.name = uuid := by
  rw [buildServient_name h]
  have hdrop : t.title.data.dropWhile (fun c => rustIsWhitespace c) = [] :=
    List.dropWhile_eq_nil_iff.mpr hws
  unfold firstWhitespaceToken
  rw [hdrop]
  exact string_nil_append uuid

/-- Witness for C10 at the whitespace-titled sample schema. -/
theorem c10_whitespace_title_witness : wsBuilt.name = "u" :=
  c10_whitespace_title (by decide)
    (show buildServient wsThing "u" = .ok wsBuilt by decide)

/-- C2 counterexample: the claim as frozen says the path set of the built
route table equals exactly the set of distinct translated hrefs; on the
schema with no forms the build succeeds, yet the table serves the root and
the well-known path while the translated-href set is empty. -/
theorem c2_route_table_counterexample :
    buildServient emptyThing "u" = .ok emptyBuilt
    ∧ pathsOfS emptyBuilt = ["/", "/.well-known/wot"]
    ∧ flattenForms emptyThing = []
    ∧ ¬ (∀ p, p ∈ pathsOfS emptyBuilt ↔
          ∃ f ∈ flattenForms emptyThing, uritemplate_to_axum f.href = .ok p) := by
  refine ⟨by decide, by decide, by decide, ?_⟩
  intro hall
  rcases (hall "/").mp (by decide) with ⟨f, hf, _⟩
  rw [show flattenForms emptyThing = [] from by decide] at hf
  cases hf

/-- C2 as amended: for every successfully built schema the route table's
path set is exactly the distinct translated hrefs together with the root
path and the well-known path, and the handler bound to a verb at a path is
exactly one declared by a Form against that translated href (merged across
top-level, property, action and event forms, never overwritten or dropped)
or one of the two canonical GET handlers. -/
theorem c2_route_table_amended {t : ThingM} {uuid : String} {s : ServientM}
    (h : buildServient t uuid = .ok s) :
    (∀ p, p ∈ pathsOfS s ↔
      (∃ f ∈ flattenForms t, uritemplate_to_axum f.href = .ok p) ∨ p = "/" ∨ p = wellKnown)
    ∧ (∀ p v hd, sLookup s p v = some hd ↔
      (∃ f ∈ flattenForms t, ∃ uid, uritemplate_to_axum f.href = .ok p
          ∧ (v, uid) ∈ f.table ∧ hd = .user uid)
      ∨ (p = "/" ∧ v = .GET ∧ hd = .thingDoc (serializeThing t))
      ∨ (p = wellKnown ∧ v = .GET ∧ hd = .redirect "/")) := by
  obtain ⟨rt, rt2, rt3, hb, ha1, ha2, hs⟩ := buildServient_ok h
  subst hs
  constructor
  · intro p
    unfold pathsOfS
    rw [routesTable_mk]
    rw [addRoute_paths ha2 p, addRoute_paths ha1 p, bfr_paths hb p]
    rw [show pathsOf ([] : RouteTable) = [] from rfl]
    simp only [List.not_mem_nil, false_or]
    exact or_assoc
  · intro p v hd
    unfold sLookup
    rw [routesTable_mk]
    constructor
    · intro hl
      rcases addRoute_complete ha2 hl with hl2 | ⟨hp, h3⟩
      · rcases addRoute_complete ha1 hl2 with hl3 | ⟨hp, h3⟩
        · rcases bfr_complete hb hl3 with hl4 | hform
          · rw [show lookupRoute ([] : RouteTable) p v = none from rfl] at hl4
            cases hl4
          · exact Or.inl hform
        · rcases lookupVerb_singleton h3 with ⟨rfl, rfl⟩
          exact Or.inr (Or.inl ⟨hp, rfl, rfl⟩)
      · rcases lookupVerb_singleton h3 with ⟨rfl, rfl⟩
        exact Or.inr (Or.inr ⟨hp, rfl, rfl⟩)
    · intro hx
      rcases hx with ⟨f, hf, uid, hfp, hmem, rfl⟩ | ⟨rfl, rfl, rfl⟩ | ⟨rfl, rfl, rfl⟩
      · exact addRoute_preserve ha2 (addRoute_preserve ha1 (bfr_mem hb hf hfp hmem))
      · exact addRoute_preserve ha2 (addRoute_mem ha1 (by simp))
      · exact addRoute_mem ha2 (by simp)

/-- Witness for the amended C2 at the sample schema. -/
theorem c2_route_table_witness :
    (∀ p, p ∈ pathsOfS sampleBuilt ↔
      (∃ f ∈ flattenForms sampleThing, uritemplate_to_axum f.href = .ok p)
        ∨ p = "/" ∨ p = wellKnown)
    ∧ (∀ p v hd, sLookup sampleBuilt p v = some hd ↔
      (∃ f ∈ flattenForms sampleThing, ∃ uid, uritemplate_to_axum f.href = .ok p
          ∧ (v, uid) ∈ f.table ∧ hd = .user uid)
      ∨ (p = "/" ∧ v = .GET ∧ hd = .thingDoc (serializeThing sampleThing))
      ∨ (p = wellKnown ∧ v = .GET ∧ hd = .redirect "/")) :=
  c2_route_table_amended (show buildServient sampleThing "uuid0" = .ok sampleBuilt by decide)

/-- C3 counterexample: a two-variable simple expression makes the translator
panic (an assertion failure, not a returned TemplateError value), a dot
expression panics with the unsupported-operator message, the whole build of
a schema carrying such an href ends in that panic, and an href whose
offending expression sits after a query expression translates successfully,
so the claim's "for every href containing such an expression" fails. -/
theorem c3_template_counterexample :
    uritemplate_to_axum "\x7ba,b\x7d"
        = .panic "more than one variable in the expression is not supported."
    ∧ uritemplate_to_axum "\x7b.a\x7d" = .panic "Unsupported operator"
    ∧ buildServient badThing "u"
        = .panicked "more than one variable in the expression is not supported."
    ∧ uritemplate_to_axum "/x\x7b?q\x7d\x7ba,b\x7d" = .ok "/x" := by
  refine ⟨by decide, by decide, by decide, by decide⟩

/-- C3 as amended: a simple-operator expression reached by the translation
loop that does not name exactly one variable panics with the assertion
message, a dot, semicolon, plus or ampersand expression reached by the loop
panics with the unsupported-operator message, the first variable is never
silently used, and a form href whose translation panics prevents
`build_servient` from returning any Servient; the failure is a panic, not a
returned error value. -/
theorem c3_template_panics_amended :
    (∀ path specs rest, specs.length ≠ 1 →
      translateComponents path (.varList .null specs :: rest)
        = .panic "more than one variable in the expression is not supported.")
    ∧ (∀ path op specs rest,
        (op = TOp.dot ∨ op = TOp.semi ∨ op = TOp.plus ∨ op = TOp.amp) →
        translateComponents path (.varList op specs :: rest)
          = .panic "Unsupported operator")
    ∧ (∀ (t : ThingM) (uuid : String),
        (∃ f ∈ flattenForms t, ∃ m, uritemplate_to_axum f.href = .panic m) →
        ∀ s, buildServient t uuid ≠ .ok s) := by
  refine ⟨?_, ?_, ?_⟩
  · intro path specs rest hn
    match specs with
    | [] => rfl
    | [v] => exact absurd rfl hn
    | v1 :: v2 :: vs => rfl
  · intro path op specs rest hop
    rcases hop with rfl | rfl | rfl | rfl <;> rfl
  · rintro t uuid ⟨f, hf, m, hm⟩ s hok
    rcases buildServient_ok hok with ⟨rt, rt2, rt3, hb, h1, h2, h3⟩
    rcases bfr_translate hb f hf with ⟨p, hp⟩
    rw [hp] at hm
    cases hm

/-- Witness for the amended C3: a concrete two-variable expression, a
concrete dot expression, and the sample schema with the offending href whose
build returns no Servient. -/
theorem c3_template_panics_witness :
    translateComponents "" [.varList .null [⟨"a"⟩, ⟨"b"⟩]]
        = .panic "more than one variable in the expression is not supported."
    ∧ translateComponents "" [.varList .dot []] = .panic "Unsupported operator"
    ∧ buildServient badThing "u" ≠ .ok (fallbackServient badThing) := by
  refine ⟨?_, ?_, ?_⟩
  · exact c3_template_panics_amended.1 "" [⟨"a"⟩, ⟨"b"⟩] [] (by decide)
  · exact c3_template_panics_amended.2.1 "" TOp.dot [] [] (Or.inl rfl)
  · exact c3_template_panics_amended.2.2 badThing "u"
      ⟨SFormM.mk "\x7ba,b\x7d" [], by decide,
        "more than one variable in the expression is not supported.", by decide⟩
      (fallbackServient badThing)

end WS
